import Mathlib

/-!
# Verification of the forecast / pattern-analysis core of `Backend.py`

Shallow embedding of the two analytic endpoints of the personal-finance
backend (`spending_forecast` and `weekly_pattern`) and of the dense daily
series both of them build with
`df.set_index('date')['amount'].resample('D').sum().fillna(0)`.

Modelling decisions:
* a calendar day is an absolute day number (`Nat`); the reference moment
  `datetime.now()` is a calendar triple `(year, month, day)` since the code
  only uses its year/month (for `calendar.monthrange`) and day-of-month;
* monetary amounts are exact rationals (`Rat`), abstracting IEEE-754
  `float64` arithmetic of pandas/numpy;
* the random matrix produced by `np.random.choice(daily, size=(sims,
  days_left))` is passed in explicitly as a list of rows; theorems
  quantify over every matrix of the shape the code requests, so they hold
  for every outcome of the random draws.
-/

namespace Backend

/-- One row of `SELECT date, amount FROM transactions`: the date as an
absolute day number, the amount as an exact rational. -/
structure Transaction where
  date : Nat
  amount : Rat
deriving DecidableEq, Repr

/-- Total amount dated on day `d`: the value the day-bin `d` receives from
`.resample('D').sum()` (0 when no transaction falls on `d`). -/
def sumOn (tx : List Transaction) (d : Nat) : Rat :=
  (tx.map (fun t => if t.date = d then t.amount else 0)).sum

/-- Earliest transaction date (the first bin of the resampled series). -/
def firstDate (tx : List Transaction) : Nat :=
  match tx with
  | [] => 0
  | t :: ts => ts.foldl (fun a u => min a u.date) t.date

/-- Latest transaction date (the last bin of the resampled series). -/
def lastDate (tx : List Transaction) : Nat :=
  match tx with
  | [] => 0
  | t :: ts => ts.foldl (fun a u => max a u.date) t.date

/-- The dense daily series `df.set_index('date')['amount']
.resample('D').sum().fillna(0)`: one `(day, total)` pair for every calendar
day from the first to the last transaction date, zero where no transaction
falls. -/
def dailySeries (tx : List Transaction) : List (Nat × Rat) :=
  if tx.isEmpty then []
  else
    (List.range (lastDate tx - firstDate tx + 1)).map
      (fun i => (firstDate tx + i, sumOn tx (firstDate tx + i)))

/-- The `.values` array of the daily series: just the amounts. -/
def dailyAmounts (tx : List Transaction) : List Rat :=
  (dailySeries tx).map Prod.snd

/-! ## Lemmas about the date range -/

theorem foldl_min_le_acc (ts : List Transaction) :
    ∀ a : Nat, ts.foldl (fun x u => min x u.date) a ≤ a := by
  induction ts with
  | nil => intro a; exact Nat.le_refl a
  | cons u us ih =>
    intro a
    exact Nat.le_trans (ih (min a u.date)) (Nat.min_le_left _ _)

theorem foldl_min_le_mem (ts : List Transaction) :
    ∀ a : Nat, ∀ t ∈ ts, ts.foldl (fun x u => min x u.date) a ≤ t.date := by
  induction ts with
  | nil => intro a t ht; cases ht
  | cons u us ih =>
    intro a t ht
    rcases List.mem_cons.mp ht with rfl | hmem
    · exact Nat.le_trans (foldl_min_le_acc us _) (Nat.min_le_right _ _)
    · exact ih (min a u.date) t hmem

theorem acc_le_foldl_max (ts : List Transaction) :
    ∀ a : Nat, a ≤ ts.foldl (fun x u => max x u.date) a := by
  induction ts with
  | nil => intro a; exact Nat.le_refl a
  | cons u us ih =>
    intro a
    exact Nat.le_trans (Nat.le_max_left _ _) (ih (max a u.date))

theorem mem_le_foldl_max (ts : List Transaction) :
    ∀ a : Nat, ∀ t ∈ ts, t.date ≤ ts.foldl (fun x u => max x u.date) a := by
  induction ts with
  | nil => intro a t ht; cases ht
  | cons u us ih =>
    intro a t ht
    rcases List.mem_cons.mp ht with rfl | hmem
    · exact Nat.le_trans (Nat.le_max_right _ _) (acc_le_foldl_max us _)
    · exact ih (max a u.date) t hmem

theorem firstDate_le_date {tx : List Transaction} {t : Transaction}
    (ht : t ∈ tx) : firstDate tx ≤ t.date := by
  cases tx with
  | nil => cases ht
  | cons u us =>
    rcases List.mem_cons.mp ht with rfl | hmem
    · exact foldl_min_le_acc us _
    · exact foldl_min_le_mem us _ t hmem

theorem date_le_lastDate {tx : List Transaction} {t : Transaction}
    (ht : t ∈ tx) : t.date ≤ lastDate tx := by
  cases tx with
  | nil => cases ht
  | cons u us =>
    rcases List.mem_cons.mp ht with rfl | hmem
    · exact acc_le_foldl_max us _
    · exact mem_le_foldl_max us _ t hmem

theorem firstDate_le_lastDate {tx : List Transaction} (h : tx ≠ []) :
    firstDate tx ≤ lastDate tx := by
  cases tx with
  | nil => exact absurd rfl h
  | cons u us =>
    exact Nat.le_trans (firstDate_le_date (List.mem_cons_self u us))
      (date_le_lastDate (List.mem_cons_self u us))

/-! ## Conservation of the total amount -/

theorem list_range_map_sum (n : Nat) (g : Nat → Rat) :
    ((List.range n).map g).sum = ∑ i in Finset.range n, g i := by
  induction n with
  | zero => simp
  | succ m ih =>
    rw [List.range_succ, List.map_append, List.sum_append,
      Finset.sum_range_succ, ih]
    simp

/-- Summing the day-bins over a window covering every transaction date
recovers the total of the raw amounts: each transaction lands in exactly
one bin. -/
theorem bucket_sum (tx : List Transaction) (f n : Nat)
    (h : ∀ t ∈ tx, f ≤ t.date ∧ t.date < f + n) :
    ((List.range n).map (fun i => sumOn tx (f + i))).sum
      = (tx.map (fun t => t.amount)).sum := by
  induction tx with
  | nil => simp [sumOn]
  | cons t ts ih =>
    have hts : ∀ u ∈ ts, f ≤ u.date ∧ u.date < f + n :=
      fun u hu => h u (List.mem_cons_of_mem _ hu)
    have ht := h t (List.mem_cons_self t ts)
    have hsplit :
        ((List.range n).map (fun i => sumOn (t :: ts) (f + i))).sum
          = (∑ i in Finset.range n,
              (if t.date = f + i then t.amount else 0))
            + ((List.range n).map (fun i => sumOn ts (f + i))).sum := by
      rw [list_range_map_sum, list_range_map_sum]
      rw [← Finset.sum_add_distrib]
      refine Finset.sum_congr rfl (fun i _ => ?_)
      simp [sumOn]
    have hone :
        (∑ i in Finset.range n,
            (if t.date = f + i then t.amount else 0)) = t.amount := by
      rw [Finset.sum_eq_single (t.date - f)]
      · rw [if_pos (by omega)]
      · intro b _ hbne
        rw [if_neg (by omega)]
      · intro hnot
        exact absurd (Finset.mem_range.mpr (by omega)) hnot
    rw [hsplit, hone, ih hts]
    simp

/-! ## Calendar (`calendar.monthrange`) and the reference moment -/

/-- Gregorian leap-year rule, as `calendar.isleap`. -/
def isLeap (y : Nat) : Bool :=
  (y % 4 == 0 && y % 100 != 0) || y % 400 == 0

/-- `calendar.monthrange(y, m)[1]`: number of days in month `m` of year
`y`, leap years accounted for. -/
def daysInMonth (y m : Nat) : Nat :=
  if m = 2 then (if isLeap y then 29 else 28)
  else if m = 4 ∨ m = 6 ∨ m = 9 ∨ m = 11 then 30
  else 31

/-- The reference moment `datetime.now()`: the code uses only its year,
month and day-of-month. -/
structure CalDate where
  year : Nat
  month : Nat
  day : Nat
deriving DecidableEq, Repr

/-- `days_left = days_in_month - today.day` (a Python `int`, so modelled
as `Int`). -/
def daysLeft (today : CalDate) : Int :=
  (daysInMonth today.year today.month : Int) - (today.day : Int)

/-! ## Percentiles (`np.percentile`, linear interpolation) and rounding -/

/-- Index of the lower neighbour of the virtual position
`q/100 * (n-1)` used by `np.percentile`'s default linear interpolation. -/
def pIndex (q : Rat) (n : Nat) : Nat :=
  (⌊q / 100 * ((n : Rat) - 1)⌋).toNat

/-- Fractional part of the virtual position `q/100 * (n-1)`. -/
def pFrac (q : Rat) (n : Nat) : Rat :=
  q / 100 * ((n : Rat) - 1) - (pIndex q n : Rat)

/-- `np.percentile(xs, q)` with the default linear interpolation: sort the
data, interpolate between the two neighbours of the virtual position
`q/100 * (n-1)` (upper neighbour clipped to the last index). -/
def percentile (q : Rat) (xs : List Rat) : Rat :=
  let s := List.insertionSort (· ≤ ·) xs
  let n := s.length
  s.getD (pIndex q n) 0
    + pFrac q n * (s.getD (min (pIndex q n + 1) (n - 1)) 0
        - s.getD (pIndex q n) 0)

/-- `round(x, 2)`: round to 2 decimal places. (Python rounds float ties
to even; ties at the third decimal never matter for any claim here, so
the ordinary round-half-up `round` models it.) -/
def round2 (x : Rat) : Rat :=
  ((round (x * 100) : Int) : Rat) / 100

/-! ## The spending-forecast endpoint -/

/-- Number of Monte-Carlo trials, `sims = 5000`. -/
def sims : Nat := 5000

/-- `spent_so_far = daily[:today.day].sum()` — a positional slice: the sum
of the first `today.day` entries of the dense daily array, wherever that
array happens to start. -/
def spentSoFar (tx : List Transaction) (today : CalDate) : Rat :=
  ((dailyAmounts tx).take today.day).sum

/-- `total_sim = samples.sum(axis=1) + spent_so_far`: one total per trial
row of the random matrix. -/
def simTotals (tx : List Transaction) (today : CalDate)
    (samples : List (List Rat)) : List Rat :=
  samples.map (fun row => row.sum + spentSoFar tx today)

/-- JSON success payload of `/api/spending_forecast`. -/
structure ForecastResult where
  days_left : Int
  simulations : Nat
  p5 : Rat
  p50 : Rat
  p95 : Rat
deriving DecidableEq, Repr

/-- Response of `/api/spending_forecast`: either the success payload or
the `{"message": "Ingen data"}` body returned when the user has no
transactions. -/
inductive ForecastResponse where
  | noData
  | ok (r : ForecastResult)
deriving DecidableEq, Repr

/-- The `/api/spending_forecast` endpoint body. `samples` stands for the
matrix returned by `np.random.choice(daily, size=(sims, days_left))`;
theorems quantify over every matrix of that shape, hence over every
outcome of the draws. -/
def spendingForecast (tx : List Transaction) (today : CalDate)
    (samples : List (List Rat)) : ForecastResponse :=
  if tx.isEmpty then .noData
  else
    let totals := simTotals tx today samples
    .ok { days_left := daysLeft today
          simulations := sims
          p5 := round2 (percentile 5 totals)
          p50 := round2 (percentile 50 totals)
          p95 := round2 (percentile 95 totals) }

/-! ## The weekly-pattern endpoint -/

/-- `padded.reshape(n_weeks, 7)`, row-major: row `w` is the slice
`padded[7*w : 7*w + 7]`. -/
def toWeeks (nWeeks : Nat) (xs : List Rat) : List (List Rat) :=
  (List.range nWeeks).map (fun w => (xs.drop (7 * w)).take 7)

/-- Column `j` of the week × weekday matrix. -/
def colVals (weeks : List (List Rat)) (j : Nat) : List Rat :=
  weeks.map (fun w => w.getD j 0)

/-- `np.mean`: sum divided by length (`Rat` division by 0 yields 0 where
numpy would emit NaN with a warning; that value is never observed because
the empty case dies earlier, at `argmax`). -/
def listMean (xs : List Rat) : Rat := xs.sum / (xs.length : Rat)

/-- Population variance, the square of `np.std`. `np.std(axis=0)` is the
elementwise square root of this; the square root of a rational is
irrational in general, and no claim concerns the stds' values — only how
many there are, which the elementwise square root preserves. -/
def popVar (xs : List Rat) : Rat :=
  (xs.map (fun x => (x - listMean xs) ^ 2)).sum / (xs.length : Rat)

/-- `np.argmax`: index of the first occurrence of the maximum. -/
def argmaxAux (i best : Nat) (bv : Rat) : List Rat → Nat
  | [] => best
  | x :: xs => if bv < x then argmaxAux (i + 1) i x xs
               else argmaxAux (i + 1) best bv xs

/-- `np.argmax` on a list; `none` models the `ValueError: attempt to get
argmax of an empty sequence` numpy raises on an empty array. -/
def argmaxIdx : List Rat → Option Nat
  | [] => none
  | x :: xs => some (argmaxAux 1 0 x xs)

/-- JSON payload of `/api/weekly_pattern`. -/
structure WeeklyPatternResult where
  weekly_totals : List Rat
  weekday_means : List Rat
  weekday_stds : List Rat
  top_week_index : Nat
deriving DecidableEq, Repr

/-- `n_days = daily_array.shape[0]`. -/
def n_days (tx : List Transaction) : Nat := (dailyAmounts tx).length

/-- `n_weeks = int(np.ceil(n_days / 7))`, i.e. `⌈n_days / 7⌉`. -/
def n_weeks (tx : List Transaction) : Nat := (n_days tx + 6) / 7

/-- `padded = np.pad(daily_array, (0, n_weeks*7 - n_days),
constant_values=0)`. -/
def padded (tx : List Transaction) : List Rat :=
  dailyAmounts tx ++ List.replicate (n_weeks tx * 7 - n_days tx) (0 : Rat)

/-- `weeks_matrix = padded.reshape(n_weeks, 7)`. -/
def weeks_matrix (tx : List Transaction) : List (List Rat) :=
  toWeeks (n_weeks tx) (padded tx)

/-- `weekly_totals = weeks_matrix.sum(axis=1)`. -/
def weekly_totals (tx : List Transaction) : List Rat :=
  (weeks_matrix tx).map List.sum

/-- `weekday_means = weeks_matrix.mean(axis=0)`. -/
def weekday_means (tx : List Transaction) : List Rat :=
  (List.range 7).map (fun j => listMean (colVals (weeks_matrix tx) j))

/-- `weekday_stds = weeks_matrix.std(axis=0)` (population std; modelled
up to the elementwise square root, see `popVar`). -/
def weekday_stds (tx : List Transaction) : List Rat :=
  (List.range 7).map (fun j => popVar (colVals (weeks_matrix tx) j))

/-- The `/api/weekly_pattern` endpoint body. Unlike the forecast endpoint
it has no empty-input guard: with zero transactions the pipeline reaches
`np.argmax` of an empty array, which raises `ValueError` — modelled as
`Except.error`. -/
def weeklyPattern (tx : List Transaction) :
    Except String WeeklyPatternResult :=
  match argmaxIdx (weekly_totals tx) with
  | none => .error "attempt to get argmax of an empty sequence"
  | some k =>
      .ok { weekly_totals := weekly_totals tx
            weekday_means := weekday_means tx
            weekday_stds := weekday_stds tx
            top_week_index := k }

/-! ## Example inputs used by the witnesses -/

/-- Scenario A of the spec: transactions on day 1 (amount 100) and day 3
(amount 50). -/
def txA : List Transaction := [⟨1, 100⟩, ⟨3, 50⟩]

/-! ## Percentile lemmas -/

theorem sorted_getD_mono {s : List Rat} (hs : s.Sorted (· ≤ ·))
    {a b : Nat} (hab : a ≤ b) (hb : b < s.length) :
    s.getD a 0 ≤ s.getD b 0 := by
  have ha : a < s.length := Nat.lt_of_le_of_lt hab hb
  rw [List.getD_eq_get s 0 ha, List.getD_eq_get s 0 hb]
  exact hs.rel_get_of_le hab

theorem pIndex_le {q : Rat} {n : Nat} (hn : 1 ≤ n) (hq0 : 0 ≤ q)
    (hq1 : q ≤ 100) : pIndex q n ≤ n - 1 := by
  have hn1 : (0 : Rat) ≤ (n : Rat) - 1 := by
    have : (1 : Rat) ≤ (n : Rat) := by exact_mod_cast hn
    linarith
  have hposle : q / 100 * ((n : Rat) - 1) ≤ (n : Rat) - 1 := by
    have h1 : q / 100 ≤ 1 := by linarith
    nlinarith
  have hcast : ((n : Rat) - 1) = (((n : Int) - 1 : Int) : Rat) := by
    push_cast; ring
  have hfl : ⌊q / 100 * ((n : Rat) - 1)⌋ ≤ (n : Int) - 1 := by
    calc ⌊q / 100 * ((n : Rat) - 1)⌋ ≤ ⌊(n : Rat) - 1⌋ :=
          Int.floor_le_floor hposle
      _ = (n : Int) - 1 := by rw [hcast, Int.floor_intCast]
  simp only [pIndex]
  omega

theorem pIndex_cast {q : Rat} {n : Nat} (hn : 1 ≤ n) (hq0 : 0 ≤ q) :
    ((pIndex q n : Nat) : Rat) = (⌊q / 100 * ((n : Rat) - 1)⌋ : Rat) := by
  have hn1 : (0 : Rat) ≤ (n : Rat) - 1 := by
    have : (1 : Rat) ≤ (n : Rat) := by exact_mod_cast hn
    linarith
  have hpos : 0 ≤ q / 100 * ((n : Rat) - 1) := by positivity
  have hfl : (0 : Int) ≤ ⌊q / 100 * ((n : Rat) - 1)⌋ :=
    Int.floor_nonneg.mpr hpos
  simp only [pIndex]
  exact_mod_cast Int.toNat_of_nonneg hfl

theorem pFrac_nonneg {q : Rat} {n : Nat} (hn : 1 ≤ n) (hq0 : 0 ≤ q) :
    0 ≤ pFrac q n := by
  simp only [pFrac]
  rw [pIndex_cast hn hq0]
  have := Int.floor_le (q / 100 * ((n : Rat) - 1))
  linarith

theorem pFrac_lt_one {q : Rat} {n : Nat} (hn : 1 ≤ n) (hq0 : 0 ≤ q) :
    pFrac q n < 1 := by
  simp only [pFrac]
  rw [pIndex_cast hn hq0]
  have := Int.lt_floor_add_one (q / 100 * ((n : Rat) - 1))
  linarith

theorem pIndex_mono {q₁ q₂ : Rat} {n : Nat} (hn : 1 ≤ n)
    (h12 : q₁ ≤ q₂) : pIndex q₁ n ≤ pIndex q₂ n := by
  have hn1 : (0 : Rat) ≤ (n : Rat) - 1 := by
    have : (1 : Rat) ≤ (n : Rat) := by exact_mod_cast hn
    linarith
  have hle : q₁ / 100 * ((n : Rat) - 1) ≤ q₂ / 100 * ((n : Rat) - 1) := by
    have : q₁ / 100 ≤ q₂ / 100 := by linarith
    exact mul_le_mul_of_nonneg_right this hn1
  simp only [pIndex]
  exact Int.toNat_le_toNat (Int.floor_le_floor hle)

/-- A percentile of a constant data set is that constant. -/
theorem percentile_const {q c : Rat} {xs : List Rat} (hxs : xs ≠ [])
    (hall : ∀ x ∈ xs, x = c) (hq0 : 0 ≤ q) (hq1 : q ≤ 100) :
    percentile q xs = c := by
  have hperm := List.perm_insertionSort (· ≤ ·) xs
  have hlen : (List.insertionSort (· ≤ ·) xs).length = xs.length :=
    hperm.length_eq
  have hn : 1 ≤ (List.insertionSort (· ≤ ·) xs).length := by
    rw [hlen]
    exact List.length_pos.mpr hxs
  have halls : ∀ x ∈ List.insertionSort (· ≤ ·) xs, x = c :=
    fun x hx => hall x (hperm.mem_iff.mp hx)
  have hval : ∀ k, k < (List.insertionSort (· ≤ ·) xs).length →
      (List.insertionSort (· ≤ ·) xs).getD k 0 = c := by
    intro k hk
    rw [List.getD_eq_get _ 0 hk]
    exact halls _ (List.get_mem _ _ _)
  have hi := pIndex_le hn hq0 hq1
  have hj : min (pIndex q (List.insertionSort (· ≤ ·) xs).length + 1)
      ((List.insertionSort (· ≤ ·) xs).length - 1)
      < (List.insertionSort (· ≤ ·) xs).length := by omega
  show (List.insertionSort (· ≤ ·) xs).getD
        (pIndex q (List.insertionSort (· ≤ ·) xs).length) 0
      + pFrac q (List.insertionSort (· ≤ ·) xs).length * _ = c
  rw [hval _ (by omega), hval _ hj]
  ring

/-- `np.percentile` with linear interpolation is monotone in `q` on
[0, 100]: quantile curves never cross. -/
theorem percentile_mono {q₁ q₂ : Rat} {xs : List Rat} (hxs : xs ≠ [])
    (h0 : 0 ≤ q₁) (h12 : q₁ ≤ q₂) (h2 : q₂ ≤ 100) :
    percentile q₁ xs ≤ percentile q₂ xs := by
  have hsorted := List.sorted_insertionSort (· ≤ ·) xs
  have hperm := List.perm_insertionSort (· ≤ ·) xs
  have hn : 1 ≤ (List.insertionSort (· ≤ ·) xs).length := by
    rw [hperm.length_eq]
    exact List.length_pos.mpr hxs
  set s := List.insertionSort (· ≤ ·) xs with hs_def
  set n := s.length with hn_def
  have h0' : (0 : Rat) ≤ q₂ := le_trans h0 h12
  have h1' : q₁ ≤ 100 := le_trans h12 h2
  have hi₁ : pIndex q₁ n ≤ n - 1 := pIndex_le hn h0 h1'
  have hi₂ : pIndex q₂ n ≤ n - 1 := pIndex_le hn h0' h2
  have hmono : pIndex q₁ n ≤ pIndex q₂ n := pIndex_mono hn h12
  have hf₁0 : 0 ≤ pFrac q₁ n := pFrac_nonneg hn h0
  have hf₂0 : 0 ≤ pFrac q₂ n := pFrac_nonneg hn h0'
  have hf₁1 : pFrac q₁ n < 1 := pFrac_lt_one hn h0
  have hshow₁ : percentile q₁ xs = s.getD (pIndex q₁ n) 0
      + pFrac q₁ n * (s.getD (min (pIndex q₁ n + 1) (n - 1)) 0
          - s.getD (pIndex q₁ n) 0) := rfl
  have hshow₂ : percentile q₂ xs = s.getD (pIndex q₂ n) 0
      + pFrac q₂ n * (s.getD (min (pIndex q₂ n + 1) (n - 1)) 0
          - s.getD (pIndex q₂ n) 0) := rfl
  rw [hshow₁, hshow₂]
  have hAB₁ : s.getD (pIndex q₁ n) 0
      ≤ s.getD (min (pIndex q₁ n + 1) (n - 1)) 0 :=
    sorted_getD_mono hsorted (by omega) (by omega)
  have hAB₂ : s.getD (pIndex q₂ n) 0
      ≤ s.getD (min (pIndex q₂ n + 1) (n - 1)) 0 :=
    sorted_getD_mono hsorted (by omega) (by omega)
  rcases Nat.lt_or_ge (pIndex q₁ n) (pIndex q₂ n) with hlt | hge
  · -- lower index strictly increases: chain through s[j₁] ≤ s[i₂]
    have hj₁i₂ : s.getD (min (pIndex q₁ n + 1) (n - 1)) 0
        ≤ s.getD (pIndex q₂ n) 0 :=
      sorted_getD_mono hsorted (by omega) (by omega)
    nlinarith [mul_nonneg hf₂0 (sub_nonneg.mpr hAB₂)]
  · -- same lower index: the fractional part alone increases
    have heq : pIndex q₁ n = pIndex q₂ n := Nat.le_antisymm hmono hge
    have hfle : pFrac q₁ n ≤ pFrac q₂ n := by
      simp only [pFrac, heq]
      have hn1 : (0 : Rat) ≤ (n : Rat) - 1 := by
        have : (1 : Rat) ≤ (n : Rat) := by exact_mod_cast hn
        linarith
      have : q₁ / 100 * ((n : Rat) - 1) ≤ q₂ / 100 * ((n : Rat) - 1) := by
        have : q₁ / 100 ≤ q₂ / 100 := by linarith
        exact mul_le_mul_of_nonneg_right this hn1
      linarith
    rw [heq]
    have := sub_nonneg.mpr hAB₂
    nlinarith [mul_le_mul_of_nonneg_right hfle this]

/-! # Claims -/

/-- C1: for every non-empty transaction list, the daily series has length
`(last_date - first_date) + 1` days, its dates are exactly the gap-free
ascending run `first_date, first_date+1, …, last_date`, and the sum of
its amounts equals the sum of all input transaction amounts. -/
theorem daily_series_dense_sorted_conserves (tx : List Transaction)
    (h : tx ≠ []) :
    (dailySeries tx).length = lastDate tx - firstDate tx + 1 ∧
    (dailySeries tx).map Prod.fst
      = List.range' (firstDate tx) (lastDate tx - firstDate tx + 1) ∧
    ((dailySeries tx).map Prod.snd).sum
      = (tx.map (fun t => t.amount)).sum := by
  have hne : tx.isEmpty = false := by
    cases tx with
    | nil => exact absurd rfl h
    | cons a l => rfl
  have hfl : firstDate tx ≤ lastDate tx := firstDate_le_lastDate h
  have hds : dailySeries tx
      = (List.range (lastDate tx - firstDate tx + 1)).map
          (fun i => (firstDate tx + i,
            sumOn tx (firstDate tx + i))) := by
    simp [dailySeries, hne]
  refine ⟨by rw [hds]; simp, ?_, ?_⟩
  · rw [hds, List.map_map, List.range'_eq_map_range]
    rfl
  · rw [hds, List.map_map]
    have hcomp : (Prod.snd ∘ fun i =>
        (firstDate tx + i, sumOn tx (firstDate tx + i)))
        = fun i => sumOn tx (firstDate tx + i) := rfl
    rw [hcomp]
    apply bucket_sum
    intro t ht
    have h1 := firstDate_le_date ht
    have h2 := date_le_lastDate ht
    omega

/-- Witness for C1 at Scenario A: series `[100, 0, 50]` over days 1–3,
length 3, total 150. -/
theorem daily_series_dense_sorted_conserves_witness :
    txA ≠ [] ∧
    ((dailySeries txA).length = lastDate txA - firstDate txA + 1 ∧
     (dailySeries txA).map Prod.fst
       = List.range' (firstDate txA) (lastDate txA - firstDate txA + 1) ∧
     ((dailySeries txA).map Prod.snd).sum
       = (txA.map (fun t => t.amount)).sum) :=
  ⟨by decide, daily_series_dense_sorted_conserves txA (by decide)⟩

/-- C4: for every non-empty input and reference date valid in its month,
the forecast's `days_left` equals `days_in_month - day_of_month` and is
non-negative; `daysInMonth` accounts for leap years (Feb 2024 has 29
days, Feb 2025 has 28, Feb 1900 has 28, Feb 2000 has 29). -/
theorem forecast_days_left_eq (tx : List Transaction) (today : CalDate)
    (samples : List (List Rat)) (htx : tx ≠ [])
    (hday : today.day ≤ daysInMonth today.year today.month) :
    (∃ r, spendingForecast tx today samples = .ok r ∧
      r.days_left
        = (daysInMonth today.year today.month : Int) - (today.day : Int) ∧
      0 ≤ r.days_left) ∧
    daysInMonth 2024 2 = 29 ∧ daysInMonth 2025 2 = 28 ∧
    daysInMonth 1900 2 = 28 ∧ daysInMonth 2000 2 = 29 := by
  have hne : tx.isEmpty = false := by
    cases tx with
    | nil => exact absurd rfl htx
    | cons a l => rfl
  have hres : spendingForecast tx today samples =
      .ok { days_left := daysLeft today
            simulations := sims
            p5 := round2 (percentile 5 (simTotals tx today samples))
            p50 := round2 (percentile 50 (simTotals tx today samples))
            p95 := round2 (percentile 95 (simTotals tx today samples)) } := by
    simp [spendingForecast, hne]
  refine ⟨⟨_, hres, rfl, ?_⟩, by decide, by decide, by decide, by decide⟩
  simp only [daysLeft]
  omega

/-- Witness for C4: Scenario A's transactions on 2025-04-15. -/
theorem forecast_days_left_eq_witness :
    (txA ≠ [] ∧ (15 : Nat) ≤ daysInMonth 2025 4) ∧
    ((∃ r, spendingForecast txA ⟨2025, 4, 15⟩ [] = .ok r ∧
        r.days_left = (daysInMonth 2025 4 : Int) - (15 : Int) ∧
        0 ≤ r.days_left) ∧
      daysInMonth 2024 2 = 29 ∧ daysInMonth 2025 2 = 28 ∧
      daysInMonth 1900 2 = 28 ∧ daysInMonth 2000 2 = 29) :=
  ⟨⟨by decide, by decide⟩,
    forecast_days_left_eq txA ⟨2025, 4, 15⟩ [] (by decide) (by decide)⟩

/-- C5: with an empty transaction list the forecast endpoint answers the
`{"message": "Ingen data"}` body, for every reference date and every
sample matrix — no simulation, no crash. -/
theorem forecast_empty_returns_no_data (today : CalDate)
    (samples : List (List Rat)) :
    spendingForecast [] today samples = .noData := rfl

/-- C6: with an empty transaction list the weekly-pattern endpoint does
not produce a result or a no-data message: it fails (the pipeline reaches
`np.argmax` of the empty weekly-totals array, raising `ValueError`),
whereas the forecast endpoint guards the empty case and answers its
no-data body. -/
theorem weekly_pattern_empty_errors (today : CalDate)
    (samples : List (List Rat)) :
    weeklyPattern []
        = .error "attempt to get argmax of an empty sequence" ∧
    (∀ r, weeklyPattern [] ≠ .ok r) ∧
    spendingForecast [] today samples = .noData :=
  ⟨rfl, fun r hr => Except.noConfusion (hr.symm.trans
    (rfl : weeklyPattern []
      = .error "attempt to get argmax of an empty sequence")), rfl⟩

/-- Rounding to 2 decimals is monotone. -/
theorem round2_mono {a b : Rat} (h : a ≤ b) : round2 a ≤ round2 b := by
  simp only [round2]
  have hr : round (a * 100) ≤ round (b * 100) := by
    rw [round_eq, round_eq]
    exact Int.floor_le_floor (by linarith)
  have hc : ((round (a * 100) : Int) : Rat) ≤ ((round (b * 100) : Int) : Rat) := by
    exact_mod_cast hr
  linarith

/-- C3: on the last day of the month (`days_left = 0`) every trial row of
the sample matrix is empty, so every simulated total equals
`spent_so_far` exactly and all three reported percentiles equal
`spent_so_far` rounded to 2 decimals. -/
theorem forecast_last_day_collapses (tx : List Transaction)
    (today : CalDate) (samples : List (List Rat)) (htx : tx ≠ [])
    (hlast : today.day = daysInMonth today.year today.month)
    (hrows : samples.length = sims)
    (hrowlen : ∀ row ∈ samples, row.length = (daysLeft today).toNat) :
    (∀ t ∈ simTotals tx today samples, t = spentSoFar tx today) ∧
    (∃ r, spendingForecast tx today samples = .ok r ∧
      r.days_left = 0 ∧
      r.p5 = round2 (spentSoFar tx today) ∧
      r.p50 = round2 (spentSoFar tx today) ∧
      r.p95 = round2 (spentSoFar tx today)) := by
  have hne : tx.isEmpty = false := by
    cases tx with
    | nil => exact absurd rfl htx
    | cons a l => rfl
  have hdl : daysLeft today = 0 := by
    simp only [daysLeft, hlast]
    omega
  have hall : ∀ t ∈ simTotals tx today samples,
      t = spentSoFar tx today := by
    intro t ht
    simp only [simTotals, List.mem_map] at ht
    obtain ⟨row, hrow, rfl⟩ := ht
    have hlen0 : row.length = 0 := by
      rw [hrowlen row hrow, hdl]
      rfl
    rw [List.eq_nil_of_length_eq_zero hlen0]
    simp
  have hne2 : simTotals tx today samples ≠ [] := by
    intro hc
    have hlen := congrArg List.length hc
    simp only [simTotals, List.length_map, List.length_nil, hrows] at hlen
    exact absurd hlen (by decide)
  have h5 := percentile_const (q := 5) hne2 hall (by norm_num) (by norm_num)
  have h50 := percentile_const (q := 50) hne2 hall (by norm_num) (by norm_num)
  have h95 := percentile_const (q := 95) hne2 hall (by norm_num) (by norm_num)
  have hres : spendingForecast tx today samples =
      .ok { days_left := daysLeft today
            simulations := sims
            p5 := round2 (percentile 5 (simTotals tx today samples))
            p50 := round2 (percentile 50 (simTotals tx today samples))
            p95 := round2 (percentile 95 (simTotals tx today samples)) } := by
    simp [spendingForecast, hne]
  exact ⟨hall, ⟨_, hres, hdl,
    by simp only [h5], by simp only [h50], by simp only [h95]⟩⟩

/-- Witness for C3: Scenario B — reference date 2025-04-30, the last day
of a 30-day month, with the 5000 × 0 sample matrix. -/
theorem forecast_last_day_collapses_witness :
    (txA ≠ [] ∧
      (⟨2025, 4, 30⟩ : CalDate).day = daysInMonth 2025 4 ∧
      (List.replicate 5000 ([] : List Rat)).length = sims ∧
      (∀ row ∈ List.replicate 5000 ([] : List Rat),
        row.length = (daysLeft ⟨2025, 4, 30⟩).toNat)) ∧
    ((∀ t ∈ simTotals txA ⟨2025, 4, 30⟩ (List.replicate 5000 []),
        t = spentSoFar txA ⟨2025, 4, 30⟩) ∧
      (∃ r, spendingForecast txA ⟨2025, 4, 30⟩
            (List.replicate 5000 []) = .ok r ∧
        r.days_left = 0 ∧
        r.p5 = round2 (spentSoFar txA ⟨2025, 4, 30⟩) ∧
        r.p50 = round2 (spentSoFar txA ⟨2025, 4, 30⟩) ∧
        r.p95 = round2 (spentSoFar txA ⟨2025, 4, 30⟩))) := by
  have h1 : txA ≠ [] := by decide
  have h2 : (⟨2025, 4, 30⟩ : CalDate).day = daysInMonth 2025 4 := by decide
  have h3 : (List.replicate 5000 ([] : List Rat)).length = sims := by
    rw [List.length_replicate]
    rfl
  have h4 : ∀ row ∈ List.replicate 5000 ([] : List Rat),
      row.length = (daysLeft ⟨2025, 4, 30⟩).toNat := by
    intro row hrow
    rw [List.eq_of_mem_replicate hrow]
    rfl
  exact ⟨⟨h1, h2, h3, h4⟩,
    forecast_last_day_collapses txA ⟨2025, 4, 30⟩ _ h1 h2 h3 h4⟩

/-- C9: for every forecast computed from a non-empty transaction list and
a non-empty sample matrix — in particular the code's 5000-row matrix —
and for every outcome of the random draws, the reported percentiles
satisfy `p5 ≤ p50 ≤ p95`: the linearly interpolated percentile is
monotone in `q` and rounding preserves order. -/
theorem forecast_percentiles_ordered (tx : List Transaction)
    (today : CalDate) (samples : List (List Rat)) (htx : tx ≠ [])
    (hsamp : samples ≠ []) :
    ∃ r, spendingForecast tx today samples = .ok r ∧
      r.p5 ≤ r.p50 ∧ r.p50 ≤ r.p95 := by
  have hne : tx.isEmpty = false := by
    cases tx with
    | nil => exact absurd rfl htx
    | cons a l => rfl
  have hres : spendingForecast tx today samples =
      .ok { days_left := daysLeft today
            simulations := sims
            p5 := round2 (percentile 5 (simTotals tx today samples))
            p50 := round2 (percentile 50 (simTotals tx today samples))
            p95 := round2 (percentile 95 (simTotals tx today samples)) } := by
    simp [spendingForecast, hne]
  have hne2 : simTotals tx today samples ≠ [] := by
    simp only [simTotals]
    intro hc
    exact hsamp (List.map_eq_nil.mp hc)
  refine ⟨_, hres, ?_, ?_⟩
  · exact round2_mono (percentile_mono hne2 (by norm_num) (by norm_num)
      (by norm_num))
  · exact round2_mono (percentile_mono hne2 (by norm_num) (by norm_num)
      (by norm_num))

/-- Witness for C9: Scenario A transactions on 2025-04-15 with a single
empty trial row. -/
theorem forecast_percentiles_ordered_witness :
    (txA ≠ [] ∧ ([[]] : List (List Rat)) ≠ []) ∧
    (∃ r, spendingForecast txA ⟨2025, 4, 15⟩ [[]] = .ok r ∧
      r.p5 ≤ r.p50 ∧ r.p50 ≤ r.p95) :=
  ⟨⟨by decide, by decide⟩,
    forecast_percentiles_ordered txA ⟨2025, 4, 15⟩ [[]]
      (by decide) (by decide)⟩

/-! ## Reshape lemmas for the weekly pattern -/

theorem toWeeks_length (k : Nat) (xs : List Rat) :
    (toWeeks k xs).length = k := by
  simp [toWeeks]

/-- Row sums of the reshaped matrix add up to the whole array: the
consecutive length-7 slices partition a list of length ≤ 7·n. -/
theorem slice_sum (n : Nat) : ∀ xs : List Rat, xs.length ≤ 7 * n →
    ((List.range n).map (fun w => ((xs.drop (7 * w)).take 7).sum)).sum
      = xs.sum := by
  induction n with
  | zero =>
    intro xs hlen
    have : xs = [] := List.eq_nil_of_length_eq_zero (by omega)
    subst this
    simp
  | succ m ih =>
    intro xs hlen
    rw [List.range_succ_eq_map, List.map_cons, List.sum_cons,
      List.map_map]
    have hhead : ((xs.drop (7 * 0)).take 7).sum = (xs.take 7).sum := by
      norm_num
    have htail : ((List.range m).map
        ((fun w => ((xs.drop (7 * w)).take 7).sum) ∘ Nat.succ)).sum
        = (xs.drop 7).sum := by
      have hcongr : ∀ w : Nat,
          ((fun w => ((xs.drop (7 * w)).take 7).sum) ∘ Nat.succ) w
            = (((xs.drop 7).drop (7 * w)).take 7).sum := by
        intro w
        have hidx : (xs.drop 7).drop (7 * w) = xs.drop (7 * Nat.succ w) := by
          rw [List.drop_drop]
          congr 1
          omega
        simp only [Function.comp_apply, hidx]
      rw [List.map_congr_left (fun w _ => hcongr w)]
      apply ih
      rw [List.length_drop]
      omega
    rw [hhead, htail, List.sum_take_add_sum_drop]

theorem n_days_pos {tx : List Transaction} (h : tx ≠ []) :
    1 ≤ n_days tx := by
  have hne : tx.isEmpty = false := by
    cases tx with
    | nil => exact absurd rfl h
    | cons a l => rfl
  simp [n_days, dailyAmounts, dailySeries, hne]

theorem weekly_totals_length (tx : List Transaction) :
    (weekly_totals tx).length = n_weeks tx := by
  simp [weekly_totals, weeks_matrix, toWeeks_length]

theorem weeklyPattern_ok {tx : List Transaction} (h : tx ≠ []) :
    ∃ k, weeklyPattern tx = .ok { weekly_totals := weekly_totals tx
                                  weekday_means := weekday_means tx
                                  weekday_stds := weekday_stds tx
                                  top_week_index := k } := by
  have hpos : 0 < (weekly_totals tx).length := by
    rw [weekly_totals_length]
    have := n_days_pos h
    simp only [n_weeks]
    omega
  obtain ⟨x, xs, hcons⟩ :=
    List.exists_cons_of_ne_nil (List.ne_nil_of_length_pos hpos)
  refine ⟨argmaxAux 1 0 x xs, ?_⟩
  simp only [weeklyPattern, hcons, argmaxIdx]

/-- C7: for every non-empty input, the weekly-pattern result has exactly
7 weekday means and 7 weekday stds, and `⌈n_days / 7⌉` weekly totals —
enough length-7 weeks to cover the series (`n_days ≤ 7·n_weeks`) with the
last week only partially real (`7·(n_weeks - 1) < n_days`), the remainder
zero-padded. -/
theorem weekly_pattern_shapes (tx : List Transaction) (h : tx ≠ []) :
    ∃ r, weeklyPattern tx = .ok r ∧
      r.weekday_means.length = 7 ∧
      r.weekday_stds.length = 7 ∧
      r.weekly_totals.length = (n_days tx + 6) / 7 ∧
      n_days tx ≤ 7 * r.weekly_totals.length ∧
      7 * (r.weekly_totals.length - 1) < n_days tx := by
  obtain ⟨k, hk⟩ := weeklyPattern_ok h
  have hpos := n_days_pos h
  refine ⟨_, hk, by simp [weekday_means], by simp [weekday_stds], ?_, ?_, ?_⟩
  · rw [weekly_totals_length]
    rfl
  · rw [weekly_totals_length]
    simp only [n_weeks]
    omega
  · rw [weekly_totals_length]
    simp only [n_weeks]
    omega

/-- Witness for C7: Scenario A, 3 days → 1 week. -/
theorem weekly_pattern_shapes_witness :
    txA ≠ [] ∧
    (∃ r, weeklyPattern txA = .ok r ∧
      r.weekday_means.length = 7 ∧
      r.weekday_stds.length = 7 ∧
      r.weekly_totals.length = (n_days txA + 6) / 7 ∧
      n_days txA ≤ 7 * r.weekly_totals.length ∧
      7 * (r.weekly_totals.length - 1) < n_days txA) :=
  ⟨by decide, weekly_pattern_shapes txA (by decide)⟩

/-- C8: the weekly totals sum to the sum of the daily amounts — the
trailing zero-padding contributes nothing. -/
theorem weekly_totals_conserve (tx : List Transaction) (h : tx ≠ []) :
    ∃ r, weeklyPattern tx = .ok r ∧
      r.weekly_totals.sum = (dailyAmounts tx).sum := by
  obtain ⟨k, hk⟩ := weeklyPattern_ok h
  refine ⟨_, hk, ?_⟩
  show (weekly_totals tx).sum = (dailyAmounts tx).sum
  have hpadlen : (padded tx).length = 7 * n_weeks tx := by
    simp only [padded, List.length_append, List.length_replicate, n_weeks]
    have : n_days tx = (dailyAmounts tx).length := rfl
    omega
  have hmat : (weekly_totals tx).sum = (padded tx).sum := by
    simp only [weekly_totals, weeks_matrix, toWeeks, List.map_map]
    exact slice_sum (n_weeks tx) (padded tx) (by omega)
  rw [hmat]
  simp only [padded, List.sum_append, List.sum_replicate, smul_zero,
    add_zero]

/-- Witness for C8: Scenario A, weekly totals sum to 150. -/
theorem weekly_totals_conserve_witness :
    txA ≠ [] ∧
    (∃ r, weeklyPattern txA = .ok r ∧
      r.weekly_totals.sum = (dailyAmounts txA).sum) :=
  ⟨by decide, weekly_totals_conserve txA (by decide)⟩

/-! ## C2: positional slicing versus calendar filtering -/

/-- Modelled from the spec (§9): the alternative computation the spec
contrasts with the code — "filtering transactions whose date falls within
the current calendar month", the elapsed part of the month being the
day-number interval `[monthStart, monthStart + dayOfMonth)`. The code
does NOT compute this; it is here only to be compared with
`spentSoFar`. -/
def monthFilteredSpent (tx : List Transaction)
    (monthStart dayOfMonth : Nat) : Rat :=
  ((tx.filter (fun t =>
      decide (monthStart ≤ t.date) && decide (t.date < monthStart + dayOfMonth))).map
    (fun t => t.amount)).sum

/-- Transactions for the C2 disagreement: one on absolute day 2 (amount
100, before the current month), one on day 12 (amount 50). The current
month starts on absolute day 10 and the reference date is its 3rd day
(absolute day 12). -/
def txB : List Transaction := [⟨2, 100⟩, ⟨12, 50⟩]

/-- C2: `spent_so_far` is the sum of the first `today.day` entries of the
daily array — positional slicing from the start of the series — and not
the calendar-month-filtered sum: on `txB` the code's positional slice
gives 100 (series entries for days 2–4, all before the current month)
while filtering to the current month's elapsed days 10–12 gives 50. -/
theorem spent_so_far_is_positional (tx : List Transaction)
    (today : CalDate) :
    spentSoFar tx today = ((dailyAmounts tx).take today.day).sum ∧
    spentSoFar txB ⟨2025, 5, 3⟩ = 100 ∧
    monthFilteredSpent txB 10 3 = 50 ∧
    spentSoFar txB ⟨2025, 5, 3⟩ ≠ monthFilteredSpent txB 10 3 := by
  have hda : dailyAmounts txB = [100, 0, 0, 0, 0, 0, 0, 0, 0, 0, 50] := by
    norm_num [dailyAmounts, dailySeries, txB, firstDate, lastDate, sumOn,
      show List.range 11 = [0, 1, 2, 3, 4, 5, 6, 7, 8, 9, 10] from by decide]
  have hpos : spentSoFar txB ⟨2025, 5, 3⟩ = 100 := by
    simp only [spentSoFar, hda]
    norm_num [List.take]
  have hfil : monthFilteredSpent txB 10 3 = 50 := by
    norm_num [monthFilteredSpent, txB, List.filter]
  refine ⟨rfl, hpos, hfil, ?_⟩
  rw [hpos, hfil]
  norm_num

end Backend
